import Mathlib

set_option maxHeartbeats 1000000

/-! Shallow embedding of the GroundStation26 repository: the layout editor
    (`backend/tools/layout_gui.py`), the telemetry glue
    (`src/telemetry/telemetry.py`) and the CLI wrapper scripts
    (`run_groundstation.py`, `download_map.py`), together with proofs about
    the behaviour the specification ascribes to them. -/

/-- A Python value as manipulated by the layout editor: JSON-like data.
    Dicts are association lists with unique keys kept in insertion order,
    as Python dicts are. -/
inductive PyVal where
  | vnone
  | vbool (b : Bool)
  | vint (n : Int)
  | vstr (s : String)
  | vlist (xs : List PyVal)
  | vdict (entries : List (String × PyVal))

/-- First-match association lookup: the embedding of Python `dict[k]` /
    `dict.get(k)` on the association-list representation. -/
def aget {α : Type} : List (String × α) → String → Option α
  | [], _ => none
  | (k, v) :: rest, key => if k = key then some v else aget rest key

/-- Embedding of Python `dict.__setitem__` on the association-list
    representation: replace the first binding of the key, else append. -/
def aset {α : Type} : List (String × α) → String → α → List (String × α)
  | [], key, v => [(key, v)]
  | (k, w) :: rest, key, v =>
      if k = key then (key, v) :: rest else (k, w) :: aset rest key v

/-- Embedding of Python `isinstance(x, list)`. -/
def isListVal : PyVal → Bool
  | .vlist _ => true
  | _ => false

/-- Embedding of one `not isinstance(tab, dict) or not isinstance(tab.get(arr, []), list)`
    check in `validate_layout`: the tab value defaults to `{}` and the nested
    array defaults to `[]` when absent. -/
def tabSectionBad (entries : List (String × PyVal)) (tabKey arrKey : String) : Bool :=
  match (aget entries tabKey).getD (.vdict []) with
  | .vdict sub => !(isListVal ((aget sub arrKey).getD (.vlist [])))
  | _ => true

/-- Embedding of `validate_layout` from `backend/tools/layout_gui.py`:
    structural checks on the layout document, returning the list of error
    messages in the order the source appends them. -/
def validate_layout (data : PyVal) : List String :=
  match data with
  | .vdict entries =>
      ((["version", "connection_tab", "actions_tab", "data_tab", "state_tab"].filter
          (fun k => !((aget entries k).isSome))).map
        (fun k => "Missing top-level key: " ++ k))
      ++ (if tabSectionBad entries "connection_tab" "sections" then
            ["connection_tab.sections must be a list."] else [])
      ++ (if tabSectionBad entries "actions_tab" "actions" then
            ["actions_tab.actions must be a list."] else [])
      ++ (if tabSectionBad entries "data_tab" "tabs" then
            ["data_tab.tabs must be a list."] else [])
      ++ (if tabSectionBad entries "state_tab" "states" then
            ["state_tab.states must be a list."] else [])
  | _ => ["Layout root must be an object."]

/-- Embedding of `default_layout` from `backend/tools/layout_gui.py`. -/
def default_layout : PyVal :=
  .vdict [("version", .vint 1),
          ("connection_tab", .vdict [("sections", .vlist [])]),
          ("actions_tab", .vdict [("actions", .vlist [])]),
          ("data_tab", .vdict [("tabs", .vlist [])]),
          ("state_tab", .vdict [("states", .vlist [])])]

example : validate_layout default_layout = [] := rfl

/-- The acceptance condition claim C2 states, written from the claim's words:
    the document is a dict containing all five top-level keys, and each of the
    four nested arrays (`connection_tab.sections`, `actions_tab.actions`,
    `data_tab.tabs`, `state_tab.states`) is present and list-typed. -/
def tabOkClaimed (entries : List (String × PyVal)) (tabKey arrKey : String) : Bool :=
  match aget entries tabKey with
  | some (.vdict sub) =>
      match aget sub arrKey with
      | some v => isListVal v
      | none => false
  | _ => false

/-- Root of the condition claim C2 states (see `tabOkClaimed`). -/
def claimedValid (d : PyVal) : Bool :=
  match d with
  | .vdict entries =>
      (aget entries "version").isSome &&
      tabOkClaimed entries "connection_tab" "sections" &&
      tabOkClaimed entries "actions_tab" "actions" &&
      tabOkClaimed entries "data_tab" "tabs" &&
      tabOkClaimed entries "state_tab" "states"
  | _ => false

/-- One tab of the acceptance condition `validate_layout` actually implements:
    when the tab key is present its value must be a dict, and when the nested
    array key is present inside that dict its value must be a list; an absent
    tab key or absent nested key passes this check (absence of a top-level key
    is reported separately, by the missing-key errors). -/
def tabOkAmended (entries : List (String × PyVal)) (tabKey arrKey : String) : Bool :=
  match aget entries tabKey with
  | some (.vdict sub) =>
      match aget sub arrKey with
      | some v => isListVal v
      | none => true
  | some _ => false
  | none => true

/-- The amended acceptance condition for claim C2: the document is a dict, the
    five top-level keys are present, and each tab satisfies `tabOkAmended`. -/
def amendedValid (d : PyVal) : Bool :=
  match d with
  | .vdict entries =>
      (aget entries "version").isSome &&
      (aget entries "connection_tab").isSome &&
      (aget entries "actions_tab").isSome &&
      (aget entries "data_tab").isSome &&
      (aget entries "state_tab").isSome &&
      tabOkAmended entries "connection_tab" "sections" &&
      tabOkAmended entries "actions_tab" "actions" &&
      tabOkAmended entries "data_tab" "tabs" &&
      tabOkAmended entries "state_tab" "states"
  | _ => false

/-- A layout whose `connection_tab` is an empty dict: the nested `sections`
    key is absent, yet `validate_layout` accepts it because the check reads
    `connection_tab.get("sections", [])` with a list default. -/
def sectionlessLayout : PyVal :=
  .vdict [("version", .vint 1),
          ("connection_tab", .vdict []),
          ("actions_tab", .vdict [("actions", .vlist [])]),
          ("data_tab", .vdict [("tabs", .vlist [])]),
          ("state_tab", .vdict [("states", .vlist [])])]

example : validate_layout sectionlessLayout = [] := rfl
example : claimedValid sectionlessLayout = false := rfl

/-- The file system seen by the layout editor: a map from paths to the stored
    layout document. Serialization of the document to JSON text is abstracted
    away; the store keeps the document value that `write_text` would encode. -/
structure FS where
  files : List (String × PyVal)

/-- Embedding of `Path.write_text`: bind the path to the document. -/
def fsWrite (fs : FS) (path : String) (doc : PyVal) : FS :=
  ⟨aset fs.files path doc⟩

/-- Embedding of reading a stored file back. -/
def fsRead (fs : FS) (path : String) : Option PyVal :=
  aget fs.files path

/-- The state of the layout editor that `save` touches: its current target
    path (`self.path`) and the current document (`self.data`). -/
structure LayoutEditor where
  path : String
  data : PyVal

/-- Embedding of `LayoutEditor.save` from `backend/tools/layout_gui.py`:
    validate the current document; on any error show a message box and return
    without touching the disk; otherwise write the document to `self.path`.
    The message box and the `mkdir` of the parent directory are not modelled;
    `save` never changes `self.path`. -/
def LayoutEditor.save (ed : LayoutEditor) (fs : FS) : LayoutEditor × FS :=
  if validate_layout ed.data ≠ [] then (ed, fs)
  else (ed, fsWrite fs ed.path ed.data)

/-! Telemetry glue, `src/telemetry/telemetry.py`. -/

/-- A telemetry packet, as the spec's data model describes it: endpoint tag,
    data-type tag, timestamp in milliseconds and an opaque payload. Tags are
    the integer values of the closed enumerations. -/
structure Packet where
  endpoint : Nat
  dataType : Nat
  timestamp : Nat
  payload : List Nat
deriving DecidableEq, Repr

/-- Embedding of `_load_packet_to_database`: the handler appends the packet it
    receives to the module-level list `global_packets`. The mutable global is
    passed as explicit state. -/
def _load_packet_to_database (global_packets : List Packet) (data : Packet) :
    List Packet :=
  global_packets ++ [data]

/-- Embedding of `_now_ms`: the source reads `int(time.time())`. The system
    clock is passed explicitly: `tMs` is the current epoch time in
    milliseconds, so `time.time()` reads `tMs / 1000` seconds and Python `int`
    truncates the nonnegative value downward, giving `tMs / 1000`. -/
def _now_ms (tMs : Nat) : Nat := tMs / 1000

/-- The value claim C1 says the injected clock returns for the same
    system-clock reading: the epoch millisecond count itself. -/
def claimed_now_ms (tMs : Nat) : Nat := tMs

/-- Modelled from the spec: the Router implementation lives in the external
    native module `sedsprintf_rs_2026` and is absent from this slice; the
    spec's dispatch contract gives the Router per-endpoint FIFO ingress
    queues. They are modelled as an association list from endpoint tag to the
    queued packets, oldest first. -/
def Queues : Type := List (Nat × List Packet)

/-- Queue lookup: an endpoint with no queue yet has the empty queue. -/
def qget : List (Nat × List Packet) → Nat → List Packet
  | [], _ => []
  | (k, q) :: rest, e => if k = e then q else qget rest e

/-- Replace the queue bound to one endpoint. -/
def qset : List (Nat × List Packet) → Nat → List Packet → List (Nat × List Packet)
  | [], e, q => [(e, q)]
  | (k, w) :: rest, e, q =>
      if k = e then (e, q) :: rest else (k, w) :: qset rest e q

/-- Modelled from the spec: `submit(packet)` enqueues a Packet onto its
    endpoint's queue, at the tail (FIFO). -/
def submit (qs : List (Nat × List Packet)) (p : Packet) :
    List (Nat × List Packet) :=
  qset qs p.endpoint (qget qs p.endpoint ++ [p])

/-- Submit a whole sequence of packets, in order. -/
def submitAll (qs : List (Nat × List Packet)) (ps : List Packet) :
    List (Nat × List Packet) :=
  ps.foldl submit qs

/-- Modelled from the spec: during `process_all_queues_with_timeout` a queue is
    drained by dispatching each dequeued packet to the handler synchronously,
    in FIFO order. The handler's observations are threaded as state `s`. -/
def drainQueue {σ : Type} (handler : Packet → σ → σ) (q : List Packet) (s : σ) : σ :=
  q.foldl (fun acc p => handler p acc) s

/-- A handler that records every packet it is invoked with, in invocation
    order (the observation sequence of the spec's property P1). -/
def recordingHandler (p : Packet) (seen : List Packet) : List Packet :=
  seen ++ [p]

/-- Modelled from the spec: a Router instance with its injected collaborators.
    `tx` and `nowMs` hold the identity of the injected function, or `none`
    when the caller passed `None`; `handlers` is the initial registration
    list of (endpoint, handler id) pairs. -/
structure RouterInst where
  tx : Option Nat
  nowMs : Option Nat
  handlers : List (Nat × Nat)
deriving DecidableEq, Repr

/-- Modelled from the spec: `Router.new_singleton` — the first caller wins and
    fixes the collaborators; every later call is an idempotent lookup
    returning the stored instance, never re-binding `tx`/`now_ms`. The
    process-wide singleton slot is passed as explicit state (`none` while the
    Router is still Uninitialized) and returned alongside the instance. -/
def new_singleton (slot : Option RouterInst) (tx nowMs : Option Nat)
    (handlers : Option (List (Nat × Nat))) : RouterInst × Option RouterInst :=
  match slot with
  | some r => (r, some r)
  | none =>
      let r : RouterInst := ⟨tx, nowMs, handlers.getD []⟩
      (r, some r)

/-- The guard of the `while True:` loop in `__process_queue_loop`: the source
    contains no break, no return and no cancellation check inside the loop, so
    the guard is constantly true. -/
def processQueueLoopGuard (_routerState : List (Nat × List Packet)) : Bool :=
  true

/-- The router state after `n` iterations of the loop body of
    `__process_queue_loop`: each iteration is one call to
    `process_all_queues_with_timeout(timeout_ms)`, modelled as an arbitrary
    state transformer `drain` (the claim assumes each drain call returns). -/
def processQueueLoopState (drain : List (Nat × List Packet) → List (Nat × List Packet))
    (s0 : List (Nat × List Packet)) : Nat → List (Nat × List Packet)
  | 0 => s0
  | n + 1 => drain (processQueueLoopState drain s0 n)

/-! CLI wrapper scripts, `run_groundstation.py` and `download_map.py`. -/

/-- The observable outcome of one script run: the diagnostic lines printed to
    standard error, in order, and the process exit code. -/
structure Outcome where
  stderrLines : List String
  exitCode : Int
deriving DecidableEq, Repr

/-- Embedding of `run_groundstation.py` run with valid arguments, as a
    function of the exit codes of the two wrapped external commands:
    `frontendExit` for the frontend build spawned via `build.build_frontend`
    and `backendExit` for `cargo run -p groundstation_backend`. A nonzero
    code makes `subprocess.run(check=True)` raise `CalledProcessError`; the
    frontend build runs outside `main`'s try block, so its error reaches the
    `__main__` handler, while the backend error is caught inside `main`,
    which prints to stderr and calls `sys.exit(e.returncode)` (a `SystemExit`
    no outer handler catches). -/
def run_groundstation (frontendExit backendExit : Int) : Outcome :=
  if frontendExit ≠ 0 then
    { stderrLines := ["Error: run_groundstation command failed.",
                      "  Command : <frontend build command>",
                      "  Exit    : " ++ toString frontendExit,
                      "Hint: rerun the printed command directly for full output."],
      exitCode := frontendExit }
  else if backendExit ≠ 0 then
    { stderrLines := ["Backend exited with error."], exitCode := backendExit }
  else
    { stderrLines := [], exitCode := 0 }

/-- Embedding of `download_map.py` as a function of the exit code of the one
    wrapped external command, `cargo run -p map_downloader`: a nonzero code
    raises `CalledProcessError`, caught inside `main`, which prints to stderr
    and exits with `e.returncode`. -/
def download_map (cargoExit : Int) : Outcome :=
  if cargoExit ≠ 0 then
    { stderrLines := ["Backend exited with error."], exitCode := cargoExit }
  else
    { stderrLines := [], exitCode := 0 }

/-! Valve-label formatting and parsing, `LayoutEditor._format_valve_labels`
    and `LayoutEditor._parse_valve_labels`. Python strings are embedded as
    `List Char` so that `strip`, `split` and `join` can be reasoned about. -/

/-- Whitespace test used by Python `str.strip()`. -/
def isWs (c : Char) : Bool := c.isWhitespace

/-- Drop trailing whitespace: the right half of Python `str.strip()`. -/
def dropTrailWs : List Char → List Char
  | [] => []
  | x :: xs =>
      match dropTrailWs xs with
      | [] => if isWs x then [] else [x]
      | h :: t => x :: h :: t

/-- Embedding of Python `str.strip()`: drop whitespace from both ends. -/
def pyStrip (s : List Char) : List Char :=
  dropTrailWs (s.dropWhile isWs)

/-- Embedding of Python `str.split(sep)` for a one-character separator:
    split at every occurrence of the separator, keeping empty pieces
    (so `"".split(sep) == [""]` and a trailing separator yields `""`). -/
def splitOnChar (c : Char) : List Char → List (List Char)
  | [] => [[]]
  | x :: xs =>
      if x = c then [] :: splitOnChar c xs
      else
        match splitOnChar c xs with
        | [] => [[x]]
        | h :: t => (x :: h) :: t

/-- Embedding of Python `sep.join(parts)`. -/
def joinSep (sep : List Char) : List (List Char) → List Char
  | [] => []
  | [p] => p
  | p :: q :: ps => p ++ sep ++ joinSep sep (q :: ps)

/-- One valve-label entry, the shape `_parse_valve_labels` produces: the dict
    keys `true_label` and `false_label` are always present and
    `unknown_label` is present exactly when the option is `some`. -/
structure ValveLabel where
  true_label : List Char
  false_label : List Char
  unknown_label : Option (List Char)
deriving DecidableEq, Repr

/-- Embedding of one iteration of the loop in `_format_valve_labels`: strip
    the three fields (an absent `unknown_label` reads as the empty string) and
    join them with commas. Non-dict items, which the source skips, do not
    arise in the typed model. -/
def formatValveItem (l : ValveLabel) : List Char :=
  pyStrip l.true_label ++ [','] ++ pyStrip l.false_label ++ [','] ++
    pyStrip (l.unknown_label.getD [])

/-- Embedding of `LayoutEditor._format_valve_labels`: format every entry and
    join the results with the separator `" | "`. -/
def _format_valve_labels (labels : List ValveLabel) : List Char :=
  joinSep (' ' :: '|' :: [' ']) (labels.map formatValveItem)

/-- Embedding of one iteration of the chunk loop in `_parse_valve_labels`:
    strip the chunk and skip it when empty; split the stripped chunk on
    commas and strip the parts; skip chunks with fewer than two parts; apply
    the `Open`/`Closed` defaults to empty first and second parts; keep a
    third part only when it is present and non-empty. -/
def parseValveChunk (chunk0 : List Char) : Option ValveLabel :=
  let chunk := pyStrip chunk0
  if chunk = [] then none
  else
    let parts := (splitOnChar ',' chunk).map pyStrip
    if parts.length < 2 then none
    else
      let t := parts.getD 0 []
      let f := parts.getD 1 []
      some { true_label := if t = [] then "Open".data else t,
             false_label := if f = [] then "Closed".data else f,
             unknown_label :=
               if 2 < parts.length then
                 (if parts.getD 2 [] = [] then none else some (parts.getD 2 []))
               else none }

/-- Embedding of `LayoutEditor._parse_valve_labels`: split the text on `|`,
    parse each chunk, keep the parsed entries in order. -/
def _parse_valve_labels (text : List Char) : List ValveLabel :=
  (splitOnChar '|' text).filterMap parseValveChunk

/-- The first character exists and is not whitespace. -/
def headNotWs : List Char → Bool
  | [] => false
  | x :: _ => !isWs x

/-- The last character exists and is not whitespace. -/
def lastNotWs : List Char → Bool
  | [] => false
  | [y] => !isWs y
  | _ :: y :: rest => lastNotWs (y :: rest)

/-- A field in the hypotheses of claim C10: non-empty, whitespace-stripped
    (no leading or trailing whitespace character), and free of the two
    separator characters `,` and `|`. -/
def goodField (s : List Char) : Bool :=
  headNotWs s && lastNotWs s && !(decide (',' ∈ s)) && !(decide ('|' ∈ s))

/-- A valve-label entry in the hypotheses of claim C10: `true_label` and
    `false_label` are good fields, and `unknown_label`, when present, is a
    good field as well. -/
def goodLabel (l : ValveLabel) : Bool :=
  goodField l.true_label && goodField l.false_label &&
    (match l.unknown_label with
     | none => true
     | some u => goodField u)

/-! Theorems. -/

/-- Claim C1 (code bug): at a system-clock reading of 2000 milliseconds since
    the epoch (2.000 s), the injected clock `_now_ms` returns 2 — the
    truncated second count, because the source reads `int(time.time())` —
    while the claim says it returns the millisecond count 2000. -/
theorem now_ms_returns_seconds_not_milliseconds :
    _now_ms 2000 = 2 ∧ claimed_now_ms 2000 = 2000 ∧
      _now_ms 2000 ≠ claimed_now_ms 2000 := by
  refine ⟨rfl, rfl, ?_⟩
  decide

/-- Claim C4: after a first `new_singleton` call that supplies real `tx` and
    `now_ms` collaborators, any later call — with different or all-`None`
    arguments — returns the very same Router instance, leaves the singleton
    slot unchanged, and the instance still carries the first-bound
    collaborators, never silently re-bound to `None`. -/
theorem new_singleton_idempotent (t1 n1 : Nat) (h1 : Option (List (Nat × Nat)))
    (t2 n2 : Option Nat) (h2 : Option (List (Nat × Nat))) :
    (new_singleton (new_singleton none (some t1) (some n1) h1).2 t2 n2 h2).1 =
        (new_singleton none (some t1) (some n1) h1).1 ∧
      (new_singleton (new_singleton none (some t1) (some n1) h1).2 t2 n2 h2).2 =
        (new_singleton none (some t1) (some n1) h1).2 ∧
      (new_singleton (new_singleton none (some t1) (some n1) h1).2 t2 n2 h2).1.tx =
        some t1 ∧
      (new_singleton (new_singleton none (some t1) (some n1) h1).2 t2 n2 h2).1.nowMs =
        some n1 :=
  ⟨rfl, rfl, rfl, rfl⟩

/-- Claim C5: `_load_packet_to_database` leaves the store equal to its
    previous contents with the packet appended unmodified at the end — the
    first `store.length` entries are exactly the old store, in order, and
    everything after them is exactly the one new packet. -/
theorem load_packet_appends_untouched (store : List Packet) (p : Packet) :
    (_load_packet_to_database store p).take store.length = store ∧
      (_load_packet_to_database store p).drop store.length = [p] := by
  constructor
  · simp [_load_packet_to_database]
  · simp [_load_packet_to_database]

/-- Claim C8: `__process_queue_loop` never returns — whatever
    `process_all_queues_with_timeout` does to the router state (the claim
    assumes each drain call returns) and however many iterations have run,
    the `while True:` guard is still true, so the loop has no exit path. -/
theorem process_queue_loop_never_exits
    (drain : List (Nat × List Packet) → List (Nat × List Packet))
    (s0 : List (Nat × List Packet)) (n : Nat) :
    processQueueLoopGuard (processQueueLoopState drain s0 n) = true :=
  rfl

/-- Claim C7: whenever a wrapped external command of `run_groundstation.py`
    (the frontend build or the backend `cargo run`) or of `download_map.py`
    fails with a nonzero exit code, the script prints a diagnostic to
    standard error and terminates with that same exit code, not a fixed
    substitute. -/
theorem cli_propagates_exit_code (fe be c : Int) :
    (fe ≠ 0 → (run_groundstation fe be).exitCode = fe ∧
        (run_groundstation fe be).stderrLines ≠ []) ∧
      (fe = 0 → be ≠ 0 → (run_groundstation fe be).exitCode = be ∧
        (run_groundstation fe be).stderrLines ≠ []) ∧
      (c ≠ 0 → (download_map c).exitCode = c ∧
        (download_map c).stderrLines ≠ []) := by
  refine ⟨fun h => ?_, fun h h' => ?_, fun h => ?_⟩
  · simp [run_groundstation, h]
  · simp [run_groundstation, h, h']
  · simp [download_map, h]

/-- Witness for claim C7 at concrete exit codes 101, 7 and 3. -/
theorem cli_propagates_exit_code_witness :
    (run_groundstation 101 0).exitCode = 101 ∧
      (run_groundstation 0 7).exitCode = 7 ∧
      (download_map 3).exitCode = 3 :=
  ⟨((cli_propagates_exit_code 101 0 3).1 (by decide)).1,
   ((cli_propagates_exit_code 0 7 3).2.1 rfl (by decide)).1,
   ((cli_propagates_exit_code 0 7 3).2.2 (by decide)).1⟩

/-- Looking up the key just stored by `aset` yields the stored value. -/
theorem aget_aset_self {α : Type} (l : List (String × α)) (k : String) (v : α) :
    aget (aset l k v) k = some v := by
  induction l with
  | nil => simp [aset, aget]
  | cons hd tl ih =>
      obtain ⟨k', w⟩ := hd
      by_cases h : k' = k
      · simp [aset, h, aget]
      · simp [aset, h, aget, ih]

/-- Claim C9: the freshly constructed default layout passes structural
    validation with no errors, so saving an untouched editor document always
    takes the write branch: the document lands on disk at the editor's
    path. -/
theorem default_layout_always_validates (path : String) (fs : FS) :
    validate_layout default_layout = [] ∧
      fsRead (LayoutEditor.save ⟨path, default_layout⟩ fs).2 path =
        some default_layout := by
  refine ⟨rfl, ?_⟩
  have h : LayoutEditor.save ⟨path, default_layout⟩ fs =
      (⟨path, default_layout⟩, fsWrite fs path default_layout) := by
    unfold LayoutEditor.save
    rw [if_neg (fun hc => hc rfl)]
  rw [h]
  exact aget_aset_self fs.files path default_layout

/-- Claim C6: `LayoutEditor.save` writes the layout document only when
    `validate_layout` reports no errors; on any validation error it returns
    without writing, leaving both the file system and the editor (its path
    included) unchanged, and on success it stores the current document at the
    editor's path, which it also leaves unchanged. -/
theorem layout_save_guarded_by_validation (ed : LayoutEditor) (fs : FS) :
    (validate_layout ed.data ≠ [] → LayoutEditor.save ed fs = (ed, fs)) ∧
      (validate_layout ed.data = [] →
        (LayoutEditor.save ed fs).1 = ed ∧
          fsRead (LayoutEditor.save ed fs).2 ed.path = some ed.data) := by
  constructor
  · intro h
    simp [LayoutEditor.save, h]
  · intro h
    refine ⟨?_, ?_⟩ <;> simp [LayoutEditor.save, h, fsRead, fsWrite]
    exact aget_aset_self fs.files ed.path ed.data

/-- Witness for claim C6: an integer document fails validation and `save`
    leaves everything unchanged; the default layout validates and `save`
    stores it at the editor's path. -/
theorem layout_save_guarded_by_validation_witness :
    LayoutEditor.save ⟨"layout.json", PyVal.vint 0⟩ ⟨[]⟩ =
        (⟨"layout.json", PyVal.vint 0⟩, ⟨[]⟩) ∧
      fsRead (LayoutEditor.save ⟨"layout.json", default_layout⟩ ⟨[]⟩).2
        "layout.json" = some default_layout :=
  ⟨(layout_save_guarded_by_validation ⟨"layout.json", PyVal.vint 0⟩ ⟨[]⟩).1
      (by decide),
   ((layout_save_guarded_by_validation ⟨"layout.json", default_layout⟩ ⟨[]⟩).2
      (by decide)).2⟩

/-- Claim C2 (counterexample): `sectionlessLayout` has all five top-level
    keys but its `connection_tab` dict lacks the nested `sections` key, so
    the condition the claim states is violated — yet `validate_layout`
    returns the empty error list, because the check reads the nested key
    with a list default. -/
theorem validate_layout_claim_counterexample :
    validate_layout sectionlessLayout = [] ∧
      claimedValid sectionlessLayout = false :=
  ⟨rfl, rfl⟩

/-- The per-tab branch of `validate_layout` is the negation of the per-tab
    branch of the amended acceptance condition. -/
theorem tabSectionBad_eq_not_amended (entries : List (String × PyVal))
    (t a : String) :
    tabSectionBad entries t a = !tabOkAmended entries t a := by
  unfold tabSectionBad tabOkAmended
  cases h : aget entries t with
  | none => rfl
  | some v =>
      cases v with
      | vdict sub =>
          cases h2 : aget sub a with
          | none => simp [h2, isListVal]
          | some w => simp [h2]
      | vnone => simp
      | vbool b => simp
      | vint n => simp
      | vstr s => simp
      | vlist xs => simp

/-- Claim C2 (amended): `validate_layout` returns the empty error list
    exactly when the document is a dict containing all five top-level keys,
    each of the four tab values, when present, is a dict, and each nested
    array key, when present inside its tab dict, maps to a list — presence of
    the nested array keys themselves is not required. -/
theorem validate_layout_amended_characterization (d : PyVal) :
    validate_layout d = [] ↔ amendedValid d = true := by
  cases d with
  | vdict entries =>
      simp only [validate_layout, amendedValid, tabSectionBad_eq_not_amended]
      simp [List.append_eq_nil, List.filter_eq_nil_iff, ite_eq_right_iff,
        Bool.and_eq_true, and_assoc, Option.isSome_iff_ne_none]
  | vnone => simp [validate_layout, amendedValid]
  | vbool b => simp [validate_layout, amendedValid]
  | vint n => simp [validate_layout, amendedValid]
  | vstr s => simp [validate_layout, amendedValid]
  | vlist xs => simp [validate_layout, amendedValid]

/-- Reading back the queue just stored by `qset`. -/
theorem qget_qset_self (qs : List (Nat × List Packet)) (e : Nat)
    (q : List Packet) : qget (qset qs e q) e = q := by
  induction qs with
  | nil => simp [qset, qget]
  | cons hd tl ih =>
      obtain ⟨k, w⟩ := hd
      by_cases h : k = e
      · simp [qset, h, qget]
      · simp [qset, h, qget, ih]

/-- `qset` on one endpoint leaves every other endpoint's queue unchanged. -/
theorem qget_qset_ne (qs : List (Nat × List Packet)) (k e : Nat)
    (q : List Packet) (h : k ≠ e) : qget (qset qs k q) e = qget qs e := by
  induction qs with
  | nil => simp [qset, qget, h]
  | cons hd tl ih =>
      obtain ⟨k', w⟩ := hd
      by_cases h' : k' = k
      · subst h'
        simp [qset, qget, h]
      · by_cases h'' : k' = e
        · simp [qset, h', qget, h'', Ne.symm h]
        · simp [qset, h', qget, h'', ih]

/-- After submitting a sequence of packets, the queue of endpoint `e` holds
    its previous contents followed by exactly the submitted packets whose
    endpoint is `e`, in submission order. -/
theorem qget_submitAll (ps : List Packet) (qs : List (Nat × List Packet))
    (e : Nat) :
    qget (submitAll qs ps) e =
      qget qs e ++ ps.filter (fun p => p.endpoint == e) := by
  induction ps generalizing qs with
  | nil => simp [submitAll]
  | cons p ps ih =>
      show qget (submitAll (submit qs p) ps) e = _
      rw [ih]
      by_cases h : p.endpoint = e
      · subst h
        simp [submit, qget_qset_self, List.filter_cons]
      · simp [submit, qget_qset_ne qs p.endpoint e _ h, List.filter_cons, h]

/-- Draining a queue with the recording handler appends the queue, in queue
    order, to the packets already observed. -/
theorem drainQueue_recording (q seen : List Packet) :
    drainQueue recordingHandler q seen = seen ++ q := by
  induction q generalizing seen with
  | nil => simp [drainQueue]
  | cons p q ih =>
      show drainQueue recordingHandler q (recordingHandler p seen) = _
      rw [ih]
      simp [recordingHandler]

/-- Claim C3 (P1, FIFO per endpoint): submit any sequence of packets to the
    router's queues, starting empty; draining the queue of endpoint `e`
    invokes the handler registered for `e` with exactly the packets submitted
    for `e`, in submission order. -/
theorem router_fifo_per_endpoint (ps : List Packet) (e : Nat) :
    drainQueue recordingHandler (qget (submitAll [] ps) e) [] =
      ps.filter (fun p => p.endpoint == e) := by
  rw [drainQueue_recording, qget_submitAll]
  simp [qget]

/-- An all-whitespace list vanishes under the leading-whitespace drop. -/
theorem dropWhile_ws_all (a : List Char) (h : ∀ x ∈ a, isWs x = true) :
    a.dropWhile isWs = [] := by
  induction a with
  | nil => rfl
  | cons x xs ih =>
      rw [List.dropWhile_cons, if_pos (h x (List.mem_cons_self x xs))]
      exact ih (fun y hy => h y (List.mem_cons_of_mem x hy))

/-- An all-whitespace prefix is removed by the leading-whitespace drop. -/
theorem dropWhile_ws_append (a s : List Char) (h : ∀ x ∈ a, isWs x = true) :
    (a ++ s).dropWhile isWs = s.dropWhile isWs := by
  induction a with
  | nil => rfl
  | cons x xs ih =>
      rw [List.cons_append, List.dropWhile_cons,
        if_pos (h x (List.mem_cons_self x xs))]
      exact ih (fun y hy => h y (List.mem_cons_of_mem x hy))

/-- A list whose first character is not whitespace survives the
    leading-whitespace drop. -/
theorem dropWhile_headNotWs (s : List Char) (h : headNotWs s = true) :
    s.dropWhile isWs = s := by
  cases s with
  | nil => rfl
  | cons x xs =>
      have hx : isWs x = false := by
        simpa [headNotWs, Bool.not_eq_true'] using h
      simp [List.dropWhile_cons, hx]

/-- An all-whitespace list vanishes under the trailing-whitespace drop. -/
theorem dropTrailWs_all (b : List Char) (h : ∀ x ∈ b, isWs x = true) :
    dropTrailWs b = [] := by
  induction b with
  | nil => rfl
  | cons x xs ih =>
      simp only [dropTrailWs]
      rw [ih (fun y hy => h y (List.mem_cons_of_mem x hy))]
      simp [h x (List.mem_cons_self x xs)]

/-- An all-whitespace suffix is removed by the trailing-whitespace drop. -/
theorem dropTrailWs_append (s b : List Char) (h : ∀ x ∈ b, isWs x = true) :
    dropTrailWs (s ++ b) = dropTrailWs s := by
  induction s with
  | nil => simpa using dropTrailWs_all b h
  | cons x xs ih =>
      have hrw1 : dropTrailWs ((x :: xs) ++ b) =
          match dropTrailWs (xs ++ b) with
          | [] => if isWs x = true then [] else [x]
          | h :: t => x :: h :: t := rfl
      have hrw2 : dropTrailWs (x :: xs) =
          match dropTrailWs xs with
          | [] => if isWs x = true then [] else [x]
          | h :: t => x :: h :: t := rfl
      rw [hrw1, hrw2, ih]

/-- `lastNotWs` ignores a leading character as long as the list goes on. -/
theorem lastNotWs_cons (x : Char) (t : List Char) (h : t ≠ []) :
    lastNotWs (x :: t) = lastNotWs t := by
  cases t with
  | nil => exact absurd rfl h
  | cons y r => rfl

/-- A list whose last character is not whitespace survives the
    trailing-whitespace drop. -/
theorem dropTrailWs_lastNotWs (s : List Char) (h : lastNotWs s = true) :
    dropTrailWs s = s := by
  induction s with
  | nil => rfl
  | cons x xs ih =>
      cases xs with
      | nil =>
          have hx : isWs x = false := by
            simpa [lastNotWs, Bool.not_eq_true'] using h
          simp [dropTrailWs, hx]
      | cons y r =>
          have h' : lastNotWs (y :: r) = true := by
            rw [← lastNotWs_cons x (y :: r) (by simp)]
            exact h
          have hrw : dropTrailWs (x :: y :: r) =
              match dropTrailWs (y :: r) with
              | [] => if isWs x = true then [] else [x]
              | h :: t => x :: h :: t := rfl
          rw [hrw, ih h']

/-- Stripping an all-whitespace list yields the empty list. -/
theorem pyStrip_all_ws (a : List Char) (h : ∀ x ∈ a, isWs x = true) :
    pyStrip a = [] := by
  unfold pyStrip
  rw [dropWhile_ws_all a h]
  rfl

/-- A list with a non-whitespace first character is non-empty. -/
theorem headNotWs_ne_nil (s : List Char) (h : headNotWs s = true) : s ≠ [] := by
  cases s with
  | nil => simp [headNotWs] at h
  | cons x xs => simp

/-- A list with non-whitespace first and last characters is already
    stripped. -/
theorem pyStrip_good (s : List Char) (h1 : headNotWs s = true)
    (h2 : lastNotWs s = true) : pyStrip s = s := by
  unfold pyStrip
  rw [dropWhile_headNotWs s h1, dropTrailWs_lastNotWs s h2]

/-- `headNotWs` only looks at the first character, so it survives appending. -/
theorem headNotWs_append (s b : List Char) (h : headNotWs s = true) :
    headNotWs (s ++ b) = true := by
  cases s with
  | nil => simp [headNotWs] at h
  | cons x xs => exact h

/-- `lastNotWs` only looks at the last character, so a prefix is
    irrelevant. -/
theorem lastNotWs_append (l m : List Char) (h : m ≠ []) :
    lastNotWs (l ++ m) = lastNotWs m := by
  induction l with
  | nil => rfl
  | cons x l ih =>
      rw [List.cons_append,
        lastNotWs_cons x (l ++ m) (fun he => h (List.append_eq_nil.mp he).2), ih]

/-- Stripping whitespace padding around a list with non-whitespace first and
    last characters recovers the list. -/
theorem pyStrip_pad (a s b : List Char) (ha : ∀ x ∈ a, isWs x = true)
    (hb : ∀ x ∈ b, isWs x = true) (h1 : headNotWs s = true)
    (h2 : lastNotWs s = true) :
    pyStrip (a ++ (s ++ b)) = s := by
  unfold pyStrip
  rw [dropWhile_ws_append a (s ++ b) ha,
    dropWhile_headNotWs (s ++ b) (headNotWs_append s b h1),
    dropTrailWs_append s b hb, dropTrailWs_lastNotWs s h2]

/-- `splitOnChar` passes a separator-free prefix into its first piece. -/
theorem splitOnChar_append (c : Char) (p q hd : List Char)
    (tl : List (List Char)) (hc : c ∉ p) (hq : splitOnChar c q = hd :: tl) :
    splitOnChar c (p ++ q) = (p ++ hd) :: tl := by
  induction p with
  | nil => simpa using hq
  | cons x xs ih =>
      have hx : ¬(x = c) := fun he => hc (by simp [he])
      have hxs : c ∉ xs := fun hm => hc (List.mem_cons_of_mem x hm)
      have hrw : splitOnChar c ((x :: xs) ++ q) =
          if x = c then [] :: splitOnChar c (xs ++ q)
          else
            match splitOnChar c (xs ++ q) with
            | [] => [[x]]
            | h :: t => (x :: h) :: t := rfl
      rw [hrw, if_neg hx, ih hxs]
      rfl

/-- Splitting at an explicit separator occurrence after a separator-free
    prefix. -/
theorem splitOnChar_sep (c : Char) (p q : List Char) (hc : c ∉ p) :
    splitOnChar c (p ++ c :: q) = p :: splitOnChar c q := by
  have h0 : splitOnChar c (c :: q) = [] :: splitOnChar c q := by
    have hrw : splitOnChar c (c :: q) =
        if c = c then [] :: splitOnChar c q
        else
          match splitOnChar c q with
          | [] => [[c]]
          | h :: t => (c :: h) :: t := rfl
    rw [hrw, if_pos rfl]
  have h := splitOnChar_append c p (c :: q) [] (splitOnChar c q) hc h0
  simpa using h

/-- Splitting a separator-free list yields that one piece. -/
theorem splitOnChar_no_sep (c : Char) (p : List Char) (hc : c ∉ p) :
    splitOnChar c p = [p] := by
  have h := splitOnChar_append c p [] [] [] hc rfl
  simpa using h

/-- Unpack the four conjuncts of `goodField`. -/
theorem goodField_spec (s : List Char) (h : goodField s = true) :
    headNotWs s = true ∧ lastNotWs s = true ∧ ',' ∉ s ∧ '|' ∉ s := by
  simp only [goodField, Bool.and_eq_true, Bool.not_eq_true',
    decide_eq_false_iff_not] at h
  exact ⟨h.1.1.1, h.1.1.2, h.1.2, h.2⟩

/-- Evaluating `parseValveChunk` on a whitespace-padded three-field chunk
    recovers the fields: the per-entry core of the round trip. -/
theorem parseValveChunk_core (a b t f u : List Char)
    (ha : ∀ x ∈ a, isWs x = true) (hb : ∀ x ∈ b, isWs x = true)
    (hth : headNotWs t = true) (htl : lastNotWs t = true) (htc : ',' ∉ t)
    (hfh : headNotWs f = true) (hfl : lastNotWs f = true) (hfc : ',' ∉ f)
    (hu : u = [] ∨ (headNotWs u = true ∧ lastNotWs u = true ∧ ',' ∉ u)) :
    parseValveChunk (a ++ ((t ++ ',' :: (f ++ ',' :: u)) ++ b)) =
      some { true_label := t, false_label := f,
             unknown_label := if u = [] then none else some u } := by
  have huc : ',' ∉ u := by
    rcases hu with rfl | ⟨_, _, huc⟩
    · simp
    · exact huc
  have hchunkh : headNotWs (t ++ ',' :: (f ++ ',' :: u)) = true :=
    headNotWs_append t _ hth
  have hchunkl : lastNotWs (t ++ ',' :: (f ++ ',' :: u)) = true := by
    rcases hu with rfl | ⟨huh, hul, hx⟩
    · rw [lastNotWs_append t _ (by simp),
        lastNotWs_cons ',' (f ++ ',' :: []) (by simp),
        lastNotWs_append f (',' :: []) (by simp)]
      rfl
    · have hune : u ≠ [] := headNotWs_ne_nil u huh
      rw [lastNotWs_append t _ (by simp),
        lastNotWs_cons ',' (f ++ ',' :: u) (by simp),
        lastNotWs_append f (',' :: u) (by simp),
        lastNotWs_cons ',' u hune]
      exact hul
  have hstrip : pyStrip (a ++ ((t ++ ',' :: (f ++ ',' :: u)) ++ b)) =
      t ++ ',' :: (f ++ ',' :: u) :=
    pyStrip_pad a _ b ha hb hchunkh hchunkl
  have hsplit : splitOnChar ',' (t ++ ',' :: (f ++ ',' :: u)) = [t, f, u] := by
    rw [splitOnChar_sep ',' t _ htc, splitOnChar_sep ',' f u hfc,
      splitOnChar_no_sep ',' u huc]
  have hpt : pyStrip t = t := pyStrip_good t hth htl
  have hpf : pyStrip f = f := pyStrip_good f hfh hfl
  have hpu : pyStrip u = u := by
    rcases hu with rfl | ⟨huh, hul, hx⟩
    · rfl
    · exact pyStrip_good u huh hul
  have htne : t ≠ [] := headNotWs_ne_nil t hth
  have hfne : f ≠ [] := headNotWs_ne_nil f hfh
  have hchunkne : t ++ ',' :: (f ++ ',' :: u) ≠ [] :=
    fun he => htne (List.append_eq_nil.mp he).1
  simp only [parseValveChunk, hstrip, hsplit, List.map_cons, List.map_nil,
    hpt, hpf, hpu]
  rw [if_neg hchunkne]
  simp only [List.length_cons, List.length_nil]
  rw [if_neg (by decide : ¬(2 + 1 < 2))]
  simp only [List.getD_cons_zero, List.getD_cons_succ]
  rw [if_neg htne, if_neg hfne, if_pos (by norm_num : (2 : Nat) < 0 + 1 + 1 + 1)]

/-- With good fields the strips in `formatValveItem` are identities, giving
    the formatted chunk an explicit three-field shape. -/
theorem formatValveItem_eq (l : ValveLabel) (hl : goodLabel l = true) :
    formatValveItem l =
      l.true_label ++ ',' ::
        (l.false_label ++ ',' :: (l.unknown_label.getD [])) := by
  obtain ⟨t, f, u⟩ := l
  simp only [goodLabel, Bool.and_eq_true] at hl
  obtain ⟨⟨hgt, hgf⟩, hgu⟩ := hl
  obtain ⟨hth, htl, h1, h2⟩ := goodField_spec t hgt
  obtain ⟨hfh, hfl, h3, h4⟩ := goodField_spec f hgf
  have hpu : pyStrip (u.getD []) = u.getD [] := by
    cases u with
    | none => rfl
    | some u0 =>
        have hgu0 : goodField u0 = true := by simpa using hgu
        obtain ⟨huh, hul, h5, h6⟩ := goodField_spec u0 hgu0
        exact pyStrip_good u0 huh hul
  simp [formatValveItem, pyStrip_good t hth htl, pyStrip_good f hfh hfl, hpu]

/-- A good entry's formatted chunk contains no `|`. -/
theorem pipe_not_mem_format (l : ValveLabel) (hl : goodLabel l = true) :
    '|' ∉ formatValveItem l := by
  rw [formatValveItem_eq l hl]
  simp only [goodLabel, Bool.and_eq_true] at hl
  obtain ⟨⟨hgt, hgf⟩, hgu⟩ := hl
  obtain ⟨h1, h2, h3, htp⟩ := goodField_spec _ hgt
  obtain ⟨h4, h5, h6, hfp⟩ := goodField_spec _ hgf
  have hup : '|' ∉ l.unknown_label.getD [] := by
    cases hu : l.unknown_label with
    | none => simp
    | some u0 =>
        have hgu0 : goodField u0 = true := by
          rw [hu] at hgu
          simpa using hgu
        obtain ⟨h7, h8, h9, h⟩ := goodField_spec u0 hgu0
        simpa using h
  intro hm
  simp only [List.mem_append, List.mem_cons] at hm
  rcases hm with h | h | h | h | h
  · exact htp h
  · exact absurd h (by decide)
  · exact hfp h
  · exact absurd h (by decide)
  · exact hup h

/-- Parsing one whitespace-padded formatted entry recovers the entry. -/
theorem parseValveChunk_pad (a b : List Char) (l : ValveLabel)
    (ha : ∀ x ∈ a, isWs x = true) (hb : ∀ x ∈ b, isWs x = true)
    (hl : goodLabel l = true) :
    parseValveChunk (a ++ (formatValveItem l ++ b)) = some l := by
  obtain ⟨t, f, u⟩ := l
  have hfmt := formatValveItem_eq ⟨t, f, u⟩ hl
  simp only [goodLabel, Bool.and_eq_true] at hl
  obtain ⟨⟨hgt, hgf⟩, hgu⟩ := hl
  obtain ⟨hth, htl, htc, htp⟩ := goodField_spec t hgt
  obtain ⟨hfh, hfl, hfc, hfp⟩ := goodField_spec f hgf
  rw [hfmt]
  cases u with
  | none =>
      have h := parseValveChunk_core a b t f [] ha hb hth htl htc hfh hfl hfc
        (Or.inl rfl)
      simpa using h
  | some u0 =>
      have hgu0 : goodField u0 = true := by simpa using hgu
      obtain ⟨huh, hul, huc, hup⟩ := goodField_spec u0 hgu0
      have hune : u0 ≠ [] := headNotWs_ne_nil u0 huh
      have h := parseValveChunk_core a b t f u0 ha hb hth htl htc hfh hfl hfc
        (Or.inr ⟨huh, hul, huc⟩)
      simp only [Option.getD_some]
      rw [h, if_neg hune]

/-- Generalized round trip for claim C10: the formatted text may carry a
    leading all-whitespace prefix, as happens to every chunk after the first
    once the text is split at a separator. -/
theorem parse_format_aux (L : List ValveLabel) (a : List Char)
    (ha : ∀ x ∈ a, isWs x = true) (hL : ∀ l ∈ L, goodLabel l = true) :
    (splitOnChar '|'
        (a ++ joinSep (' ' :: '|' :: [' ']) (L.map formatValveItem))).filterMap
      parseValveChunk = L := by
  induction L generalizing a with
  | nil =>
      have hnp : '|' ∉ a := fun hm => absurd (ha '|' hm) (by decide)
      simp only [List.map_nil, joinSep, List.append_nil]
      rw [splitOnChar_no_sep '|' a hnp]
      simp [List.filterMap, parseValveChunk, pyStrip_all_ws a ha]
  | cons l L ih =>
      have hgl : goodLabel l = true := hL l (List.mem_cons_self l L)
      have hLr : ∀ x ∈ L, goodLabel x = true :=
        fun x hx => hL x (List.mem_cons_of_mem l hx)
      have hpipe : '|' ∉ formatValveItem l := pipe_not_mem_format l hgl
      have hnpa : '|' ∉ a := fun hm => absurd (ha '|' hm) (by decide)
      cases L with
      | nil =>
          simp only [List.map_cons, List.map_nil, joinSep]
          have hsp : '|' ∉ a ++ formatValveItem l := by
            intro hm
            rcases List.mem_append.mp hm with h | h
            · exact hnpa h
            · exact hpipe h
          rw [splitOnChar_no_sep '|' _ hsp]
          have h := parseValveChunk_pad a [] l ha (by decide) hgl
          rw [List.append_nil] at h
          simp [List.filterMap, h]
      | cons l2 L2 =>
          have htext : a ++ joinSep (' ' :: '|' :: [' '])
                ((l :: l2 :: L2).map formatValveItem) =
              (a ++ (formatValveItem l ++ [' '])) ++
                '|' :: (' ' :: joinSep (' ' :: '|' :: [' '])
                  ((l2 :: L2).map formatValveItem)) := by
            simp [joinSep, List.append_assoc]
          have hsp : '|' ∉ a ++ (formatValveItem l ++ [' ']) := by
            intro hm
            rcases List.mem_append.mp hm with h | h
            · exact hnpa h
            · rcases List.mem_append.mp h with h' | h'
              · exact hpipe h'
              · simp at h'
          rw [htext, splitOnChar_sep '|' _ _ hsp]
          have hhead := parseValveChunk_pad a [' '] l ha (by decide) hgl
          have htail := ih [' '] (by decide) hLr
          simp only [List.filterMap_cons, hhead]
          rw [show (' ' :: joinSep (' ' :: '|' :: [' '])
              ((l2 :: L2).map formatValveItem)) =
            [' '] ++ joinSep (' ' :: '|' :: [' '])
              ((l2 :: L2).map formatValveItem) from rfl, htail]

/-- Claim C10: formatting then parsing valve labels is a round trip for
    every label list whose entries have non-empty, whitespace-stripped
    `true_label` and `false_label`, an `unknown_label` that is absent or
    non-empty and stripped, and no field containing a comma or `|`. -/
theorem valve_labels_round_trip (L : List ValveLabel)
    (h : ∀ l ∈ L, goodLabel l = true) :
    _parse_valve_labels (_format_valve_labels L) = L := by
  have haux := parse_format_aux L [] (by simp) h
  simpa [_parse_valve_labels, _format_valve_labels] using haux

/-- Witness for claim C10 at a concrete two-entry list. -/
theorem valve_labels_round_trip_witness :
    (∀ l ∈ [(⟨"On".data, "Off".data, some "Mid".data⟩ : ValveLabel),
        ⟨"Open".data, "Closed".data, none⟩], goodLabel l = true) ∧
      _parse_valve_labels (_format_valve_labels
          [(⟨"On".data, "Off".data, some "Mid".data⟩ : ValveLabel),
           ⟨"Open".data, "Closed".data, none⟩]) =
        [(⟨"On".data, "Off".data, some "Mid".data⟩ : ValveLabel),
         ⟨"Open".data, "Closed".data, none⟩] :=
  ⟨by decide, valve_labels_round_trip _ (by decide)⟩

